import Mathlib

/-!
Verification of the fingerprint storage-and-matching core
(`dejavu/database_handler/sqlite3_database.py`) against its specification.

The SQLite-backed store is shallowly embedded: the two tables become lists of
records held in a `DBState`; the `INSERT OR IGNORE` statement guarded by the
unique index over `(hash, song_id, offset)` becomes an insert-if-absent on the
fingerprint list; the context-managed cursor becomes an explicit
commit/rollback combinator over a connection state.  Python's `str.lower()`
(applied here only to hexadecimal hash text, hence ASCII) is embedded
character-wise.
-/

/-- A row of the `songs` table, as created by `CREATE_SONGS_TABLE`. -/
structure Song where
  id : Nat
  name : String
  file_path : String
  file_hash : String
  total_hashes : Int
  fingerprinted : Bool
deriving DecidableEq

/-- A row of the `fingerprints` table, as created by `CREATE_FINGERPRINTS_TABLE`. -/
structure FPRow where
  song_id : Nat
  hash : String
  offset : Int
deriving DecidableEq

/-- The durable contents of the store: both tables plus the AUTOINCREMENT
counter that assigns `songs.id`. -/
structure DBState where
  songs : List Song
  fingerprints : List FPRow
  next_song_id : Nat
deriving DecidableEq

/-- A freshly `setup()` database: both tables empty, first song id will be 1. -/
def emptyStore : DBState := ⟨[], [], 1⟩

/-- ASCII lower-casing of one character, as Python's `str.lower()` acts on the
hexadecimal hash text handled by this store. -/
def charLower (c : Char) : Char :=
  if 65 ≤ c.toNat ∧ c.toNat ≤ 90 then Char.ofNat (c.toNat + 32) else c

/-- Embedding of `hsh.lower()`: character-wise ASCII lower-casing. -/
def strLower (s : String) : String := ⟨s.data.map charLower⟩

/-- Embedding of `Sqlite3Database.insert_song`: appends one `songs` row with
`fingerprinted = 0`, using `file_path or song_name` (Python truthiness: both
`None` and `""` fall back to the song name), and returns `cur.lastrowid`. -/
def insert_song (st : DBState) (song_name : String) (file_hash : String)
    (total_hashes : Int) (file_path : Option String) : DBState × Nat :=
  let fp := match file_path with
    | some p => if p = "" then song_name else p
    | none => song_name
  ({ st with
      songs := st.songs ++ [⟨st.next_song_id, song_name, fp, file_hash, total_hashes, false⟩],
      next_song_id := st.next_song_id + 1 },
   st.next_song_id)

/-- The key triple of the unique index `idx_hash_offset ON fingerprints
(hash, song_id, offset)`. -/
def fpTriple (r : FPRow) : String × Nat × Int := (r.hash, r.song_id, r.offset)

/-- Embedding of one `INSERT OR IGNORE INTO fingerprints` row: the row is
appended unless a row with the same `(hash, song_id, offset)` triple is
already present, in which case nothing happens (the constraint conflict is
silently ignored). -/
def insertFingerprint (fps : List FPRow) (v : FPRow) : List FPRow :=
  if fps.any (fun r => r.hash == v.hash && r.song_id == v.song_id && r.offset == v.offset)
  then fps
  else fps ++ [v]

/-- Chunking with explicit fuel (the fuel only needs to dominate the list
length); each step emits `bs` elements: the head plus `bs - 1` more. -/
def chunkAux (bs : Nat) : Nat → List α → List (List α)
  | 0, _ => []
  | _, [] => []
  | fuel + 1, a :: l => (a :: l.take (bs - 1)) :: chunkAux bs fuel (l.drop (bs - 1))

/-- Embedding of the slicing loop `for index in range(0, len(values),
batch_size): values[index : index + batch_size]`. -/
def chunkList (bs : Nat) (l : List α) : List (List α) := chunkAux bs l.length l

/-- Embedding of `Sqlite3Database.insert_hashes` (ignoring transaction
boundaries, which `insert_hashes_tx` below models): every hash is lower-cased
and the offset kept as an integer, then the value rows are inserted batch by
batch with duplicate-ignoring semantics. -/
def insert_hashes (st : DBState) (song_id : Nat) (hashes : List (String × Int))
    (batch_size : Nat) : DBState :=
  let values := hashes.map (fun p => FPRow.mk song_id (strLower p.1) p.2)
  { st with
      fingerprints :=
        (chunkList batch_size values).foldl
          (fun fps c => c.foldl insertFingerprint fps) st.fingerprints }

/-- One step of building the `mapper` dictionary of `return_matches`: Python
dict insertion order is kept, and an existing key has the new offset appended
to its list. -/
def addOffset : List (String × List Int) → String → Int → List (String × List Int)
  | [], h, o => [(h, [o])]
  | (k, os) :: rest, h, o =>
    if k = h then (k, os ++ [o]) :: rest else (k, os) :: addOffset rest h o

/-- Embedding of the `mapper` construction loop of `return_matches`: a mapping
from each lower-cased query hash to the ordered list of its sampled offsets. -/
def buildMapper (hashes : List (String × Int)) : List (String × List Int) :=
  hashes.foldl (fun m p => addOffset m (strLower p.1) p.2) []

/-- Dictionary lookup `mapper[hsh]` (first matching key). -/
def mlookup : List (String × List Int) → String → List Int
  | [], _ => []
  | (k, os) :: rest, h => if k = h then os else mlookup rest h

/-- The distinct canonicalized query hashes, `values = list(mapper.keys())`. -/
def queryKeys (hashes : List (String × Int)) : List String :=
  (buildMapper hashes).map Prod.fst

/-- Embedding of one chunked lookup `SELECT hash, song_id, offset FROM
fingerprints WHERE hash IN (...)`: all stored rows whose hash is a member of
the chunk, in stored order. -/
def selectMultiple (fps : List FPRow) (chunk : List String) : List FPRow :=
  fps.filter (fun r => chunk.contains r.hash)

/-- One step of the `dedup_hashes` update: `dedup_hashes[sid] = 1` on a fresh
song id, `dedup_hashes[sid] += 1` otherwise. -/
def bumpCount : List (Nat × Nat) → Nat → List (Nat × Nat)
  | [], sid => [(sid, 1)]
  | (k, n) :: rest, sid =>
    if k = sid then (k, n + 1) :: rest else (k, n) :: bumpCount rest sid

/-- Reading a song's entry out of the `dedup_hashes` mapping (0 when the song
id is absent). -/
def countsLookup : List (Nat × Nat) → Nat → Nat
  | [], _ => 0
  | (k, n) :: rest, sid => if k = sid then n else countsLookup rest sid

/-- The candidate tuples one returned row contributes: for every sampled
offset recorded against the row's (re-lower-cased) hash in the query mapping,
the tuple `(song_id, stored_offset - sampled_offset)`. -/
def perRowCands (m : List (String × List Int)) (r : FPRow) : List (Nat × Int) :=
  (mlookup m (strLower r.hash)).map (fun so => (r.song_id, r.offset - so))

/-- Embedding of the row loop body of `return_matches`: the row's song id is
counted in `dedup_hashes`, and the row's candidate tuples are appended to
`results`. -/
def processRow (m : List (String × List Int))
    (acc : List (Nat × Int) × List (Nat × Nat)) (r : FPRow) :
    List (Nat × Int) × List (Nat × Nat) :=
  (acc.1 ++ perRowCands m r, bumpCount acc.2 r.song_id)

/-- Embedding of `Sqlite3Database.return_matches`: the query pairs are folded
into `mapper`, the distinct keys are processed in chunks of `batch_size`, and
every returned row is handed to `processRow`. -/
def return_matches (st : DBState) (hashes : List (String × Int))
    (batch_size : Nat) : List (Nat × Int) × List (Nat × Nat) :=
  let m := buildMapper hashes
  let values := m.map Prod.fst
  (chunkList batch_size values).foldl
    (fun acc chunk => (selectMultiple st.fingerprints chunk).foldl (processRow m) acc)
    ([], [])

/-- A storage-engine failure surfacing inside a transactional scope, carrying
a code so that re-raising the original failure unchanged is observable. -/
inductive DbErr where
  | fault : Nat → DbErr
deriving DecidableEq

/-- The connection: its durable database contents plus the number of
currently open cursor handles. -/
structure Conn where
  db : DBState
  openCursors : Nat
deriving DecidableEq

/-- Embedding of the `cursor` context manager of `Sqlite3Database`: a cursor
handle is opened, the body runs against the connection; on normal completion
the connection commits (the body's view becomes durable), on a failure it
rolls back (the durable state is untouched) and the original failure is
re-raised; on both paths the `finally` block closes the cursor handle. -/
def cursorScope (conn : Conn) (body : DBState → Except DbErr (DBState × α)) :
    Conn × Except DbErr α :=
  match body conn.db with
  | Except.ok (db', a) => ({ db := db', openCursors := conn.openCursors }, Except.ok a)
  | Except.error e => ({ db := conn.db, openCursors := conn.openCursors }, Except.error e)

/-- The batch loop of `insert_hashes` with an explicit failure point: chunk
number `i` (when `failAt = some i`) models `cur.executemany` raising a storage
fault on that batch; all other chunks insert their rows with
duplicate-ignoring semantics. -/
def runChunks (failAt : Option Nat) : Nat → List (List FPRow) → List FPRow →
    Except DbErr (List FPRow)
  | _, [], fps => Except.ok fps
  | i, c :: cs, fps =>
    if failAt = some i then Except.error (DbErr.fault 0)
    else runChunks failAt (i + 1) cs (c.foldl insertFingerprint fps)

/-- Embedding of `Sqlite3Database.insert_hashes` with its transaction
structure kept: the whole batch loop runs inside one single cursor scope
(`with self.cursor() as cur:` encloses the `for index in range(...)` loop), so
there is exactly one commit/rollback for all chunks together. -/
def insert_hashes_tx (conn : Conn) (song_id : Nat) (hashes : List (String × Int))
    (batch_size : Nat) (failAt : Option Nat) : Conn × Except DbErr Unit :=
  let values := hashes.map (fun p => FPRow.mk song_id (strLower p.1) p.2)
  cursorScope conn (fun db =>
    (runChunks failAt 0 (chunkList batch_size values) db.fingerprints).map
      (fun fps => ({ db with fingerprints := fps }, ())))

/-- The column list of the `songs` table, from `CREATE_SONGS_TABLE`. -/
def songsColumns : List String :=
  ["id", "name", "file_path", "file_hash", "total_hashes", "fingerprinted"]

/-- The column counted by `SELECT_UNIQUE_SONG_IDS = "SELECT COUNT(DISTINCT
song_id) as n FROM songs"`. -/
def countSongsColumn : String := "song_id"

/-- Modelled from the spec: the count-of-songs accessor is declared in the
`CommonDatabase` base class, which is not among this repository's sources;
per the spec it executes `SELECT_UNIQUE_SONG_IDS` against the `songs` table.
Executing a SELECT that names a column absent from the table's schema is a
storage fault (`no such column`), not a result; were the column present, the
query would count its distinct values. -/
def count_songs (st : DBState) : Except DbErr Nat :=
  if songsColumns.contains countSongsColumn then
    Except.ok ((st.songs.map Song.id).dedup.length)
  else Except.error (DbErr.fault 1)

/-- The stored rows matching a query, chunking left aside: every fingerprint
row whose hash is among the canonicalized query hashes, with multiplicity and
in stored order. -/
def matchedRows (st : DBState) (hashes : List (String × Int)) : List FPRow :=
  st.fingerprints.filter (fun r => (queryKeys hashes).contains r.hash)

/-- The rows handed to the row loop over the whole run of `return_matches`:
chunk by chunk, the rows returned by that chunk's lookup. -/
def processedRows (st : DBState) (hashes : List (String × Int)) (bs : Nat) :
    List FPRow :=
  (chunkList bs (queryKeys hashes)).flatMap (selectMultiple st.fingerprints)

/-- The invariants of the `mapper` dictionary: its keys are distinct, every
key holds a non-empty offset list, and every key is fixed by lower-casing. -/
def mapperWF (m : List (String × List Int)) : Prop :=
  (m.map Prod.fst).Nodup ∧ (∀ p ∈ m, p.2 ≠ []) ∧ ∀ p ∈ m, strLower p.1 = p.1

theorem charLower_idem (c : Char) : charLower (charLower c) = charLower c := by
  by_cases h : 65 ≤ c.toNat ∧ c.toNat ≤ 90
  · have h1 : charLower c = Char.ofNat (c.toNat + 32) := by
      unfold charLower; rw [if_pos h]
    rw [h1]
    obtain ⟨h65, h90⟩ := h
    generalize c.toNat = n at h65 h90 ⊢
    interval_cases n <;> decide
  · have h1 : charLower c = c := by unfold charLower; rw [if_neg h]
    rw [h1, h1]

theorem strLower_idem (s : String) : strLower (strLower s) = strLower s := by
  show String.mk ((s.data.map charLower).map charLower) = String.mk (s.data.map charLower)
  rw [List.map_map]
  exact congrArg String.mk (List.map_congr_left (fun c _ => charLower_idem c))

theorem chunkAux_flatten (bs : Nat) :
    ∀ (fuel : Nat) (l : List α), l.length ≤ fuel → (chunkAux bs fuel l).flatten = l
  | 0, [], _ => rfl
  | 0, _ :: _, h => absurd h (by simp)
  | _ + 1, [], _ => rfl
  | fuel + 1, a :: l, h => by
    simp only [chunkAux, List.flatten_cons]
    rw [chunkAux_flatten bs fuel (l.drop (bs - 1))
      (by simp only [List.length_drop]; simp at h; omega)]
    rw [List.cons_append, List.take_append_drop]

theorem chunkList_flatten (bs : Nat) (l : List α) : (chunkList bs l).flatten = l :=
  chunkAux_flatten bs l.length l (Nat.le_refl _)

theorem chunkAux_mem_length (bs : Nat) (hbs : 1 ≤ bs) :
    ∀ (fuel : Nat) (l : List α), ∀ c ∈ chunkAux bs fuel l, c.length ≤ bs
  | 0, _, c, hc => absurd hc (by simp [chunkAux])
  | _ + 1, [], c, hc => absurd hc (by simp [chunkAux])
  | fuel + 1, a :: l, c, hc => by
    simp only [chunkAux, List.mem_cons] at hc
    rcases hc with rfl | hc
    · simp only [List.length_cons, List.length_take]
      omega
    · exact chunkAux_mem_length bs hbs fuel (l.drop (bs - 1)) c hc

theorem chunkList_mem_length (bs : Nat) (hbs : 1 ≤ bs) (l : List α) :
    ∀ c ∈ chunkList bs l, c.length ≤ bs :=
  chunkAux_mem_length bs hbs l.length l

theorem foldl_chunkList (bs : Nat) (f : β → α → β) (l : List α) (init : β) :
    (chunkList bs l).foldl (fun b c => c.foldl f b) init = l.foldl f init := by
  rw [← List.foldl_flatten, chunkList_flatten]

theorem insert_hashes_eq (st : DBState) (sid : Nat) (hashes : List (String × Int))
    (bs : Nat) :
    insert_hashes st sid hashes bs =
      { st with
          fingerprints :=
            (hashes.map (fun p => FPRow.mk sid (strLower p.1) p.2)).foldl
              insertFingerprint st.fingerprints } := by
  unfold insert_hashes
  dsimp only
  rw [foldl_chunkList]

theorem contains_true_iff [BEq α] [LawfulBEq α] (l : List α) (a : α) :
    l.contains a = true ↔ a ∈ l := List.elem_iff

theorem addOffset_keys (k : String) (o : Int) (x : String) :
    ∀ m : List (String × List Int),
    (x ∈ (addOffset m k o).map Prod.fst ↔ x ∈ m.map Prod.fst ∨ x = k)
  | [] => by simp [addOffset]
  | (k', os) :: rest => by
    simp only [addOffset]
    split
    case isTrue hk =>
      subst hk
      simp only [List.map_cons, List.mem_cons]
      tauto
    case isFalse hk =>
      simp only [List.map_cons, List.mem_cons, addOffset_keys k o x rest]
      tauto

theorem addOffset_nodup (k : String) (o : Int) :
    ∀ m : List (String × List Int),
    (m.map Prod.fst).Nodup → ((addOffset m k o).map Prod.fst).Nodup
  | [], _ => by simp [addOffset]
  | (k', os) :: rest, h => by
    simp only [addOffset]
    split
    · simpa using h
    case isFalse hk =>
      rw [List.map_cons, List.nodup_cons] at h ⊢
      refine ⟨?_, addOffset_nodup k o rest h.2⟩
      rw [addOffset_keys]
      rintro (hmem | rfl)
      · exact h.1 hmem
      · exact hk rfl

theorem addOffset_vals (k : String) (o : Int) :
    ∀ m : List (String × List Int),
    (∀ p ∈ m, p.2 ≠ []) → ∀ p ∈ addOffset m k o, p.2 ≠ []
  | [], _ => by simp [addOffset]
  | (k', os) :: rest, h => by
    simp only [addOffset]
    split
    · intro p hp
      rcases List.mem_cons.1 hp with rfl | hp
      · simp
      · exact h p (List.mem_cons_of_mem _ hp)
    · intro p hp
      rcases List.mem_cons.1 hp with rfl | hp
      · exact h (k', os) (List.mem_cons_self _ _)
      · exact addOffset_vals k o rest (fun q hq => h q (List.mem_cons_of_mem _ hq)) p hp

theorem addOffset_lower (k : String) (o : Int) (hk : strLower k = k) :
    ∀ m : List (String × List Int),
    (∀ p ∈ m, strLower p.1 = p.1) → ∀ p ∈ addOffset m k o, strLower p.1 = p.1
  | [], _ => by simp [addOffset, hk]
  | (k', os) :: rest, h => by
    simp only [addOffset]
    split
    · intro p hp
      rcases List.mem_cons.1 hp with rfl | hp
      · exact h (k', os) (List.mem_cons_self _ _)
      · exact h p (List.mem_cons_of_mem _ hp)
    · intro p hp
      rcases List.mem_cons.1 hp with rfl | hp
      · exact h (k', os) (List.mem_cons_self _ _)
      · exact addOffset_lower k o hk rest (fun q hq => h q (List.mem_cons_of_mem _ hq)) p hp

theorem buildMapper_wf_aux :
    ∀ (l : List (String × Int)) (m), mapperWF m →
    mapperWF (l.foldl (fun m p => addOffset m (strLower p.1) p.2) m)
  | [], _, hm => hm
  | p :: l, _, hm =>
    buildMapper_wf_aux l _
      ⟨addOffset_nodup _ _ _ hm.1, addOffset_vals _ _ _ hm.2.1,
       addOffset_lower _ _ (strLower_idem p.1) _ hm.2.2⟩

theorem buildMapper_wf (qs : List (String × Int)) : mapperWF (buildMapper qs) :=
  buildMapper_wf_aux qs [] ⟨by simp, by simp, by simp⟩

theorem mlookup_ne_nil :
    ∀ m : List (String × List Int), (∀ p ∈ m, p.2 ≠ []) →
    ∀ k ∈ m.map Prod.fst, mlookup m k ≠ []
  | [], _ => by simp
  | (k', os) :: rest, h => by
    intro k hk
    simp only [mlookup]
    split
    · exact h _ (List.mem_cons_self _ _)
    case isFalse hne =>
      apply mlookup_ne_nil rest (fun q hq => h q (List.mem_cons_of_mem _ hq))
      simp only [List.map_cons, List.mem_cons] at hk
      rcases hk with rfl | hk
      · exact absurd rfl hne
      · exact hk

theorem key_strLower (m : List (String × List Int))
    (h3 : ∀ p ∈ m, strLower p.1 = p.1) (k : String) (hk : k ∈ m.map Prod.fst) :
    strLower k = k := by
  obtain ⟨p, hp, rfl⟩ := List.mem_map.1 hk
  exact h3 p hp

theorem foldl_processRow (m : List (String × List Int)) :
    ∀ (l : List FPRow) (acc : List (Nat × Int) × List (Nat × Nat)),
    l.foldl (processRow m) acc
      = (acc.1 ++ l.flatMap (perRowCands m),
         (l.map FPRow.song_id).foldl bumpCount acc.2)
  | [], acc => by simp
  | r :: l, acc => by
    rw [List.foldl_cons, foldl_processRow m l _]
    simp [processRow, List.append_assoc]

theorem foldl_chunks_processRow (m : List (String × List Int)) (fps : List FPRow) :
    ∀ (cs : List (List String)) (acc : List (Nat × Int) × List (Nat × Nat)),
    cs.foldl (fun acc c => (selectMultiple fps c).foldl (processRow m) acc) acc
      = (acc.1 ++ (cs.flatMap (selectMultiple fps)).flatMap (perRowCands m),
         ((cs.flatMap (selectMultiple fps)).map FPRow.song_id).foldl bumpCount acc.2)
  | [], acc => by simp
  | c :: cs, acc => by
    rw [List.foldl_cons, foldl_chunks_processRow m fps cs _, foldl_processRow m _ _]
    simp [List.append_assoc]

theorem return_matches_eq (st : DBState) (qs : List (String × Int)) (bs : Nat) :
    return_matches st qs bs
      = ((processedRows st qs bs).flatMap (perRowCands (buildMapper qs)),
         ((processedRows st qs bs).map FPRow.song_id).foldl bumpCount []) := by
  unfold return_matches processedRows queryKeys
  dsimp only
  rw [foldl_chunks_processRow]
  simp

theorem countsLookup_bumpCount :
    ∀ (ds : List (Nat × Nat)) (s x : Nat),
    countsLookup (bumpCount ds s) x = countsLookup ds x + (if s = x then 1 else 0)
  | [], s, x => by
    simp only [bumpCount, countsLookup]
    omega
  | (k, n) :: rest, s, x => by
    simp only [bumpCount]
    split
    case isTrue hk =>
      subst hk
      simp only [countsLookup]
      by_cases hx : k = x <;> simp [hx]
    case isFalse hk =>
      simp only [countsLookup]
      by_cases hx : k = x
      · subst hx
        have hs : ¬s = k := fun h => hk h.symm
        simp [hs]
      · simp [hx, countsLookup_bumpCount rest s x]

theorem countsLookup_foldl_bump :
    ∀ (sids : List Nat) (ds : List (Nat × Nat)) (x : Nat),
    countsLookup (sids.foldl bumpCount ds) x = countsLookup ds x + sids.count x
  | [], ds, x => by simp
  | s :: sids, ds, x => by
    rw [List.foldl_cons, countsLookup_foldl_bump sids _ x, countsLookup_bumpCount,
      List.count_cons]
    by_cases h : s = x <;> simp [h] <;> omega

theorem mem_keys_bumpCount :
    ∀ (ds : List (Nat × Nat)) (s x : Nat),
    (x ∈ (bumpCount ds s).map Prod.fst ↔ x ∈ ds.map Prod.fst ∨ x = s)
  | [], s, x => by simp [bumpCount]
  | (k, n) :: rest, s, x => by
    simp only [bumpCount]
    split
    case isTrue hk =>
      subst hk
      simp only [List.map_cons, List.mem_cons]
      tauto
    case isFalse hk =>
      simp only [List.map_cons, List.mem_cons, mem_keys_bumpCount rest s x]
      tauto

theorem mem_keys_foldl_bump :
    ∀ (sids : List Nat) (ds : List (Nat × Nat)) (x : Nat),
    (x ∈ (sids.foldl bumpCount ds).map Prod.fst ↔ x ∈ ds.map Prod.fst ∨ x ∈ sids)
  | [], ds, x => by simp
  | s :: sids, ds, x => by
    rw [List.foldl_cons, mem_keys_foldl_bump sids _ x, mem_keys_bumpCount]
    simp only [List.mem_cons]
    tauto

theorem filter_or_perm :
    ∀ (l : List α) (p q : α → Bool), (∀ a ∈ l, ¬(p a = true ∧ q a = true)) →
    List.Perm (l.filter (fun a => p a || q a)) (l.filter p ++ l.filter q)
  | [], _, _, _ => by simp
  | a :: l, p, q, h => by
    have ih := filter_or_perm l p q (fun x hx => h x (List.mem_cons_of_mem a hx))
    by_cases hp : p a = true
    · have hq : q a = false :=
        Bool.eq_false_iff.2 (fun h' => h a (List.mem_cons_self a l) ⟨hp, h'⟩)
      simp only [List.filter_cons, hp, hq, Bool.true_or, if_true, List.cons_append]
      exact ih.cons a
    · have hp' : p a = false := Bool.eq_false_iff.2 hp
      by_cases hq : q a = true
      · simp only [List.filter_cons, hp', hq, Bool.false_or, if_true, if_false]
        exact (ih.cons a).trans List.perm_middle.symm
      · have hq' : q a = false := Bool.eq_false_iff.2 hq
        simp only [List.filter_cons, hp', hq', Bool.false_or, if_false]
        exact ih

theorem flatMap_sel_perm (fps : List FPRow) :
    ∀ cs : List (List String), cs.flatten.Nodup →
    List.Perm (cs.flatMap (selectMultiple fps))
      (fps.filter (fun r => cs.flatten.contains r.hash))
  | [], _ => by simp [selectMultiple]
  | c :: cs, h => by
    rw [List.flatten_cons] at h
    have hd := List.nodup_append.1 h
    have ih := flatMap_sel_perm fps cs hd.2.1
    simp only [List.flatMap_cons, List.flatten_cons]
    have hco : (fun r : FPRow => (c ++ cs.flatten).contains r.hash)
        = fun r : FPRow => c.contains r.hash || cs.flatten.contains r.hash := by
      funext r
      simp [List.contains_eq_any_beq]
    rw [hco]
    have hdis : ∀ r : FPRow,
        ¬(c.contains r.hash = true ∧ cs.flatten.contains r.hash = true) := by
      rintro r ⟨h1, h2⟩
      exact hd.2.2 ((contains_true_iff _ _).1 h1) ((contains_true_iff _ _).1 h2)
    have h2 := filter_or_perm fps (fun r : FPRow => c.contains r.hash)
      (fun r : FPRow => cs.flatten.contains r.hash) (fun r _ => hdis r)
    exact (ih.append_left (selectMultiple fps c)).trans h2.symm

theorem processedRows_perm (st : DBState) (qs : List (String × Int)) (bs : Nat) :
    List.Perm (processedRows st qs bs) (matchedRows st qs) := by
  unfold processedRows matchedRows
  have hj := chunkList_flatten bs (queryKeys qs)
  have hn : (chunkList bs (queryKeys qs)).flatten.Nodup := by
    rw [hj]; exact (buildMapper_wf qs).1
  have h := flatMap_sel_perm st.fingerprints (chunkList bs (queryKeys qs)) hn
  rw [hj] at h
  exact h

theorem counts_char (st : DBState) (qs : List (String × Int)) (bs : Nat) (sid : Nat) :
    countsLookup (return_matches st qs bs).2 sid
      = ((matchedRows st qs).filter (fun r => r.song_id == sid)).length := by
  rw [return_matches_eq]
  dsimp only
  rw [countsLookup_foldl_bump]
  simp only [countsLookup, Nat.zero_add]
  rw [List.count_eq_countP, List.countP_map,
    (processedRows_perm st qs bs).countP_eq, List.countP_eq_length_filter]
  rfl

theorem cands_char (st : DBState) (qs : List (String × Int)) (bs : Nat) :
    List.Perm (return_matches st qs bs).1
      ((matchedRows st qs).flatMap (perRowCands (buildMapper qs))) := by
  rw [return_matches_eq]
  exact (processedRows_perm st qs bs).flatMap_right _

theorem keys_char (st : DBState) (qs : List (String × Int)) (bs : Nat) (s : Nat) :
    s ∈ (return_matches st qs bs).2.map Prod.fst
      ↔ s ∈ (matchedRows st qs).map FPRow.song_id := by
  rw [return_matches_eq]
  dsimp only
  rw [mem_keys_foldl_bump]
  have hp := ((processedRows_perm st qs bs).map FPRow.song_id).mem_iff (a := s)
  simp [hp]

theorem matchedRows_hash_mem (st : DBState) (qs : List (String × Int)) (r : FPRow)
    (hr : r ∈ matchedRows st qs) : r.hash ∈ queryKeys qs := by
  unfold matchedRows at hr
  exact (contains_true_iff _ _).1 (List.mem_filter.1 hr).2

theorem perRowCands_ne_nil (qs : List (String × Int)) (r : FPRow)
    (hr : r.hash ∈ queryKeys qs) : perRowCands (buildMapper qs) r ≠ [] := by
  unfold perRowCands
  have hwf := buildMapper_wf qs
  rw [key_strLower _ hwf.2.2 _ hr]
  intro hmap
  exact mlookup_ne_nil _ hwf.2.1 _ hr (List.map_eq_nil_iff.1 hmap)

theorem perRowCands_fst (m : List (String × List Int)) (r : FPRow) :
    ∀ c ∈ perRowCands m r, c.1 = r.song_id := by
  intro c hc
  obtain ⟨so, _, rfl⟩ := List.mem_map.1 hc
  rfl

theorem hasRow_iff (fps : List FPRow) (v : FPRow) :
    (fps.any (fun r => r.hash == v.hash && r.song_id == v.song_id && r.offset == v.offset))
      = true ↔ fpTriple v ∈ fps.map fpTriple := by
  simp only [List.any_eq_true, Bool.and_eq_true, beq_iff_eq, List.mem_map, fpTriple,
    Prod.mk.injEq]
  constructor
  · rintro ⟨r, hr, ⟨h1, h2⟩, h3⟩
    exact ⟨r, hr, h1, h2, h3⟩
  · rintro ⟨r, hr, h1, h2, h3⟩
    exact ⟨r, hr, ⟨h1, h2⟩, h3⟩

theorem insertFingerprint_of_mem (fps : List FPRow) (v : FPRow)
    (h : fpTriple v ∈ fps.map fpTriple) : insertFingerprint fps v = fps := by
  unfold insertFingerprint
  rw [if_pos ((hasRow_iff fps v).2 h)]

theorem mem_insertFingerprint_self (fps : List FPRow) (v : FPRow) :
    fpTriple v ∈ (insertFingerprint fps v).map fpTriple := by
  unfold insertFingerprint
  split
  case isTrue h => exact (hasRow_iff fps v).1 h
  case isFalse h =>
    rw [List.map_append]
    exact List.mem_append_right _ (by simp)

theorem mem_insertFingerprint_mono (fps : List FPRow) (v : FPRow)
    (t : String × Nat × Int) (h : t ∈ fps.map fpTriple) :
    t ∈ (insertFingerprint fps v).map fpTriple := by
  unfold insertFingerprint
  split
  · exact h
  · rw [List.map_append]
    exact List.mem_append_left _ h

theorem insertFingerprint_nodup (fps : List FPRow) (v : FPRow)
    (h : (fps.map fpTriple).Nodup) :
    ((insertFingerprint fps v).map fpTriple).Nodup := by
  unfold insertFingerprint
  split
  case isTrue _ => exact h
  case isFalse hf =>
    rw [List.map_append]
    rw [List.nodup_append]
    refine ⟨h, by simp, ?_⟩
    intro t ht ht'
    simp only [List.map_cons, List.map_nil, List.mem_cons, List.not_mem_nil,
      or_false] at ht'
    subst ht'
    exact hf ((hasRow_iff fps v).2 ht)

theorem foldl_insert_mono (t : String × Nat × Int) :
    ∀ (l : List FPRow) (fps : List FPRow), t ∈ fps.map fpTriple →
    t ∈ (l.foldl insertFingerprint fps).map fpTriple
  | [], _, h => h
  | v :: l, fps, h =>
    foldl_insert_mono t l _ (mem_insertFingerprint_mono fps v t h)

theorem foldl_insert_mem :
    ∀ (l : List FPRow) (fps : List FPRow) (v : FPRow), v ∈ l →
    fpTriple v ∈ (l.foldl insertFingerprint fps).map fpTriple
  | [], _, _, h => absurd h (List.not_mem_nil _)
  | w :: l, fps, v, h => by
    rcases List.mem_cons.1 h with rfl | h
    · exact foldl_insert_mono _ l _ (mem_insertFingerprint_self fps v)
    · exact foldl_insert_mem l _ v h

theorem foldl_insert_id :
    ∀ (l : List FPRow) (fps : List FPRow),
    (∀ v ∈ l, fpTriple v ∈ fps.map fpTriple) → l.foldl insertFingerprint fps = fps
  | [], _, _ => rfl
  | v :: l, fps, h => by
    rw [List.foldl_cons, insertFingerprint_of_mem fps v (h v (List.mem_cons_self _ _))]
    exact foldl_insert_id l fps (fun w hw => h w (List.mem_cons_of_mem _ hw))

theorem foldl_insert_nodup :
    ∀ (l : List FPRow) (fps : List FPRow), (fps.map fpTriple).Nodup →
    ((l.foldl insertFingerprint fps).map fpTriple).Nodup
  | [], _, h => h
  | v :: l, fps, h =>
    foldl_insert_nodup l _ (insertFingerprint_nodup fps v h)

theorem runChunks_none :
    ∀ (cs : List (List FPRow)) (j : Nat) (fps : List FPRow),
    runChunks none j cs fps
      = Except.ok (cs.foldl (fun fps c => c.foldl insertFingerprint fps) fps)
  | [], _, _ => rfl
  | c :: cs, j, fps => by
    simp only [runChunks, reduceCtorEq, if_false]
    exact runChunks_none cs (j + 1) _

theorem runChunks_fail :
    ∀ (cs : List (List FPRow)) (j i : Nat) (fps : List FPRow), j ≤ i →
    i < j + cs.length →
    runChunks (some i) j cs fps = Except.error (DbErr.fault 0)
  | [], j, i, _, hle, hlt => absurd hlt (by simp; omega)
  | c :: cs, j, i, fps, hle, hlt => by
    simp only [runChunks]
    by_cases hij : i = j
    · rw [if_pos (by rw [hij])]
    · rw [if_neg (by simp; omega)]
      refine runChunks_fail cs (j + 1) i _ (by omega) ?_
      simp only [List.length_cons] at hlt
      omega

theorem count_le_cands_aux (sid : Nat) (f : FPRow → List (Nat × Int)) :
    ∀ l : List FPRow,
    (∀ r ∈ l, f r ≠ [] ∧ ∀ c ∈ f r, c.1 = r.song_id) →
    (l.filter (fun r => r.song_id == sid)).length
      ≤ ((l.flatMap f).filter (fun c => c.1 == sid)).length
  | [], _ => by simp
  | r :: l, h => by
    have hr := h r (List.mem_cons_self _ _)
    have ih := count_le_cands_aux sid f l (fun w hw => h w (List.mem_cons_of_mem _ hw))
    rw [List.filter_cons, List.flatMap_cons, List.filter_append, List.length_append]
    by_cases hs : r.song_id = sid
    · rw [if_pos (by simp [hs])]
      simp only [List.length_cons]
      have hfr : (f r).filter (fun c => c.1 == sid) = f r := by
        rw [List.filter_eq_self]
        intro c hc
        simp [hr.2 c hc, hs]
      rw [hfr]
      have h1 : 1 ≤ (f r).length := by
        cases hfe : f r
        · exact absurd hfe hr.1
        · simp
      omega
    · rw [if_neg (by simp [hs])]
      omega

/-- C1: for every query handed to `return_matches`, every stored fingerprint
row whose hash equals one of the canonicalized query hashes is counted once in
`matched_hash_counts[song_id]` (rows, with multiplicity, not distinct hashes):
the final count for each song id is exactly the number of such rows carrying
it; and each such row contributes, for every sampled offset recorded against
its hash in the query mapping, the tuple
`(song_id, stored_offset - sampled_offset)` to `candidates` — the candidate
list is exactly (up to the chunk processing order) the concatenation of those
per-row tuples. -/
theorem claim1_row_effects (st : DBState) (qs : List (String × Int)) (bs : Nat) :
    (∀ sid, countsLookup (return_matches st qs bs).2 sid
        = ((matchedRows st qs).filter (fun r => r.song_id == sid)).length) ∧
    List.Perm (return_matches st qs bs).1
      ((matchedRows st qs).flatMap (perRowCands (buildMapper qs))) :=
  ⟨fun sid => counts_char st qs bs sid, cands_char st qs bs⟩

/-- C2: starting from an empty store, after `insert_song("track-A")`
returning id 1 and `insert_hashes(1, [("ab12",0),("cd34",5)])`, the call
`return_matches([("ab12",100),("cd34",105)])` returns candidates
`[(1, -100), (1, -100)]` and matched hash counts `{1: 2}`. -/
theorem claim2_scenario :
    (insert_song emptyStore "track-A" "" 0 none).2 = 1 ∧
    return_matches
        (insert_hashes (insert_song emptyStore "track-A" "" 0 none).1 1
          [("ab12", 0), ("cd34", 5)] 1000)
        [("ab12", 100), ("cd34", 105)] 1000
      = ([(1, -100), (1, -100)], [(1, 2)]) :=
  ⟨rfl, by decide⟩

/-- C3 counterexample: `insert_hashes` does NOT give each chunk its own
transaction scope.  With batch size 1 and two pairs there are two chunks; a
failure while executing the second chunk rolls the whole operation back, so
the first chunk's row is not committed — the durable store is unchanged —
whereas running the first chunk alone does commit that row. -/
theorem claim3_counterexample :
    (insert_hashes_tx ⟨emptyStore, 0⟩ 1 [("aa", 0), ("bb", 1)] 1 (some 1)).1.db.fingerprints
      = [] ∧
    FPRow.mk 1 "aa" 0 ∉
      (insert_hashes_tx ⟨emptyStore, 0⟩ 1 [("aa", 0), ("bb", 1)] 1 (some 1)).1.db.fingerprints ∧
    (insert_hashes_tx ⟨emptyStore, 0⟩ 1 [("aa", 0)] 1 none).1.db.fingerprints
      = [FPRow.mk 1 "aa" 0] := by
  refine ⟨by decide, by decide, by decide⟩

/-- C3 (amended): `insert_hashes` partitions the pairs into chunks of at most
`batch_size`, but all chunks run inside one single transaction scope with one
commit at the end: a failure while executing any chunk rolls back every chunk
— the durable store is left unchanged and the failure propagates — while a
run with no failure commits all chunks at once. -/
theorem claim3_single_scope (conn : Conn) (sid : Nat) (hashes : List (String × Int))
    (bs i : Nat) (hbs : 1 ≤ bs)
    (hi : i < (chunkList bs (hashes.map (fun p => FPRow.mk sid (strLower p.1) p.2))).length) :
    (∀ c ∈ chunkList bs (hashes.map (fun p => FPRow.mk sid (strLower p.1) p.2)),
        c.length ≤ bs) ∧
    (chunkList bs (hashes.map (fun p => FPRow.mk sid (strLower p.1) p.2))).flatten
      = hashes.map (fun p => FPRow.mk sid (strLower p.1) p.2) ∧
    insert_hashes_tx conn sid hashes bs (some i)
      = ({ db := conn.db, openCursors := conn.openCursors }, Except.error (DbErr.fault 0)) ∧
    insert_hashes_tx conn sid hashes bs none
      = ({ db := insert_hashes conn.db sid hashes bs, openCursors := conn.openCursors },
         Except.ok ()) := by
  refine ⟨chunkList_mem_length bs hbs _, chunkList_flatten bs _, ?_, ?_⟩
  · have hrc := runChunks_fail
      (chunkList bs (hashes.map (fun p => FPRow.mk sid (strLower p.1) p.2))) 0 i
      conn.db.fingerprints (Nat.zero_le i) (by simpa using hi)
    simp [insert_hashes_tx, cursorScope, hrc, Except.map]
  · have hrc := runChunks_none
      (chunkList bs (hashes.map (fun p => FPRow.mk sid (strLower p.1) p.2))) 0
      conn.db.fingerprints
    simp [insert_hashes_tx, cursorScope, hrc, Except.map, insert_hashes]

/-- C3 witness: at a concrete connection, two pairs and batch size 1, a fault
on chunk 1 leaves the durable store unchanged and surfaces the error. -/
theorem claim3_witness :
    insert_hashes_tx ⟨emptyStore, 0⟩ 1 [("aa", 0), ("bb", 1)] 1 (some 1)
      = ({ db := emptyStore, openCursors := 0 }, Except.error (DbErr.fault 0)) :=
  (claim3_single_scope ⟨emptyStore, 0⟩ 1 [("aa", 0), ("bb", 1)] 1 1 (by decide)
    (by decide)).2.2.1

/-- C4: ingestion is idempotent.  Starting from a fingerprint table without
duplicate `(hash, song_id, offset)` triples, `insert_hashes` keeps it free of
duplicate triples (it cannot fail: a constraint conflict is ignored), and
re-running `insert_hashes` with the identical pair list for the same song —
at any batch size — leaves the store exactly as it was: re-ingesting an
existing triple is a no-op. -/
theorem claim4_idempotent (st : DBState) (sid : Nat) (ps : List (String × Int))
    (bs bs2 : Nat) (h : (st.fingerprints.map fpTriple).Nodup) :
    (((insert_hashes st sid ps bs).fingerprints.map fpTriple).Nodup) ∧
    insert_hashes (insert_hashes st sid ps bs) sid ps bs2 = insert_hashes st sid ps bs := by
  constructor
  · rw [insert_hashes_eq]
    exact foldl_insert_nodup _ _ h
  · have hmem : ∀ v ∈ ps.map (fun p => FPRow.mk sid (strLower p.1) p.2),
        fpTriple v ∈ ((insert_hashes st sid ps bs).fingerprints).map fpTriple := by
      intro v hv
      rw [insert_hashes_eq]
      dsimp only
      exact foldl_insert_mem _ _ v hv
    rw [insert_hashes_eq (insert_hashes st sid ps bs) sid ps bs2]
    rw [foldl_insert_id _ _ hmem]

/-- C4 witness: re-ingesting an overlapping pair list at a different batch
size is a no-op on a concrete store. -/
theorem claim4_witness :
    insert_hashes (insert_hashes emptyStore 1 [("aa", 0), ("aa", 0)] 2) 1
        [("aa", 0), ("aa", 0)] 3
      = insert_hashes emptyStore 1 [("aa", 0), ("aa", 0)] 2 :=
  (claim4_idempotent emptyStore 1 [("aa", 0), ("aa", 0)] 2 3 (by decide)).2

/-- C5: batch-size invariance.  For any two positive batch sizes,
`insert_hashes` produces the identical final store, and `return_matches`
produces the same logical result: the same multiset of candidate tuples
(the list order may differ with the chunking, as the row order inside one
lookup is unspecified anyway) and the same `matched_hash_counts` mapping
(same count for every song id and the same key set). -/
theorem claim5_batch_invariance (st : DBState) (sid : Nat)
    (ps qs : List (String × Int)) (b1 b2 : Nat) (h1 : 1 ≤ b1) (h2 : 1 ≤ b2) :
    insert_hashes st sid ps b1 = insert_hashes st sid ps b2 ∧
    List.Perm (return_matches st qs b1).1 (return_matches st qs b2).1 ∧
    (∀ s, countsLookup (return_matches st qs b1).2 s
        = countsLookup (return_matches st qs b2).2 s) ∧
    (∀ s, s ∈ (return_matches st qs b1).2.map Prod.fst
        ↔ s ∈ (return_matches st qs b2).2.map Prod.fst) := by
  refine ⟨?_, (cands_char st qs b1).trans (cands_char st qs b2).symm,
    fun s => (counts_char st qs b1 s).trans (counts_char st qs b2 s).symm,
    fun s => (keys_char st qs b1 s).trans (keys_char st qs b2 s).symm⟩
  rw [insert_hashes_eq st sid ps b1, insert_hashes_eq st sid ps b2]

/-- C5 witness: batch sizes 1 and 2 give the same store on a concrete
ingestion. -/
theorem claim5_witness :
    insert_hashes emptyStore 1 [("aa", 0), ("bb", 3)] 1
      = insert_hashes emptyStore 1 [("aa", 0), ("bb", 3)] 2 :=
  (claim5_batch_invariance emptyStore 1 [("aa", 0), ("bb", 3)] [("cc", 7)] 1 2
    (by decide) (by decide)).1

/-- C6: the count-of-songs accessor cannot return the count of Song records:
the query `SELECT COUNT(DISTINCT song_id) FROM songs` counts a column that is
not in the `songs` schema (`id, name, file_path, file_hash, total_hashes,
fingerprinted`), so executing it is a storage fault on every store state
rather than the number of songs. -/
theorem claim6_count_songs_bug :
    songsColumns.contains countSongsColumn = false ∧
    ∀ st : DBState, count_songs st = Except.error (DbErr.fault 1) := by
  refine ⟨by decide, fun st => ?_⟩
  unfold count_songs
  rw [if_neg (by decide)]

/-- C7: the cursor context manager commits on normal exit of the scope (the
body's resulting state becomes durable and its value is returned); on a
failure inside the scope it rolls back (the durable state is the one from
before the scope) and re-raises the original error unchanged; and on both
exit paths the cursor handle count is restored (the handle is released). -/
theorem claim7_cursor_scope {α : Type} (conn : Conn)
    (body : DBState → Except DbErr (DBState × α)) :
    (∀ db' a, body conn.db = Except.ok (db', a) →
      cursorScope conn body = ({ db := db', openCursors := conn.openCursors }, Except.ok a)) ∧
    (∀ e, body conn.db = Except.error e →
      cursorScope conn body
        = ({ db := conn.db, openCursors := conn.openCursors }, Except.error e)) := by
  constructor
  · intro db' a h
    unfold cursorScope
    rw [h]
  · intro e h
    unfold cursorScope
    rw [h]

/-- C7 witness: a concrete succeeding body commits and returns its value; a
concrete failing body leaves the store untouched and re-raises its error; in
both cases the open-cursor count is restored. -/
theorem claim7_witness :
    cursorScope ⟨emptyStore, 3⟩ (fun db => Except.ok (db, 42))
      = ({ db := emptyStore, openCursors := 3 }, Except.ok 42) ∧
    cursorScope ⟨emptyStore, 3⟩
        (fun _ => (Except.error (DbErr.fault 7) : Except DbErr (DBState × Nat)))
      = ({ db := emptyStore, openCursors := 3 }, Except.error (DbErr.fault 7)) :=
  ⟨(claim7_cursor_scope ⟨emptyStore, 3⟩ _).1 emptyStore 42 rfl,
   (claim7_cursor_scope ⟨emptyStore, 3⟩ _).2 (DbErr.fault 7) rfl⟩

/-- C8: `insert_song` appends exactly one Song record with `fingerprinted`
false, stores the song name as `file_path` when no file path is given,
returns the newly assigned identity, and never deduplicates: a second call —
even with the same name — appends another Song and returns a different id. -/
theorem claim8_insert_song (st : DBState) (name fh : String) (th : Int)
    (fp : Option String) :
    ((insert_song st name fh th none).1.songs
        = st.songs ++ [⟨st.next_song_id, name, name, fh, th, false⟩]) ∧
    ((insert_song st name fh th none).2 = st.next_song_id) ∧
    ((insert_song st name fh th fp).1.songs.length = st.songs.length + 1) ∧
    ((insert_song st name fh th fp).2 = st.next_song_id) ∧
    ((insert_song (insert_song st name fh th fp).1 name fh th fp).2
        ≠ (insert_song st name fh th fp).2) := by
  refine ⟨by simp [insert_song], rfl, by simp [insert_song], rfl, ?_⟩
  simp [insert_song]

/-- C9: `insert_song` treats an empty-string `file_path` exactly like an
absent one (Python truthiness of `file_path or song_name`): the stored
Song's `file_path` is the song name. -/
theorem claim9_empty_file_path (st : DBState) (name fh : String) (th : Int) :
    insert_song st name fh th (some "") = insert_song st name fh th none ∧
    ((insert_song st name fh th (some "")).1.songs
        = st.songs ++ [⟨st.next_song_id, name, name, fh, th, false⟩]) := by
  constructor
  · simp [insert_song]
  · simp [insert_song]

/-- C10: the two outputs of `return_matches` are mutually consistent: a song
id is a key of `matched_hash_counts` exactly when it occurs in some candidate
tuple; every key's count is at least 1; and each song id's count is at most
the number of candidate tuples carrying it (every counted row contributes at
least one candidate, since every query hash maps to a non-empty offset
list). -/
theorem claim10_output_consistency (st : DBState) (qs : List (String × Int))
    (bs : Nat) (sid : Nat) :
    (sid ∈ (return_matches st qs bs).2.map Prod.fst
        ↔ ∃ c ∈ (return_matches st qs bs).1, c.1 = sid) ∧
    (sid ∈ (return_matches st qs bs).2.map Prod.fst
        → 1 ≤ countsLookup (return_matches st qs bs).2 sid) ∧
    countsLookup (return_matches st qs bs).2 sid
      ≤ ((return_matches st qs bs).1.filter (fun c => c.1 == sid)).length := by
  have hkc := keys_char st qs bs sid
  have hcc := counts_char st qs bs sid
  have hpc := cands_char st qs bs
  refine ⟨?_, ?_, ?_⟩
  · rw [hkc, List.mem_map]
    constructor
    · rintro ⟨r, hr, rfl⟩
      have hne := perRowCands_ne_nil qs r (matchedRows_hash_mem st qs r hr)
      obtain ⟨c, hc⟩ := List.exists_mem_of_ne_nil _ hne
      refine ⟨c, ?_, perRowCands_fst _ r c hc⟩
      rw [hpc.mem_iff]
      exact List.mem_flatMap.2 ⟨r, hr, hc⟩
    · rintro ⟨c, hc, hcs⟩
      rw [hpc.mem_iff] at hc
      obtain ⟨r, hr, hcr⟩ := List.mem_flatMap.1 hc
      exact ⟨r, hr, by rw [← hcs, perRowCands_fst _ r c hcr]⟩
  · intro hk
    rw [hkc, List.mem_map] at hk
    obtain ⟨r, hr, hrs⟩ := hk
    rw [hcc]
    have hmem : r ∈ (matchedRows st qs).filter (fun r => r.song_id == sid) :=
      List.mem_filter.2 ⟨hr, by simp [hrs]⟩
    have hlen := List.length_pos.2 (List.ne_nil_of_mem hmem)
    omega
  · rw [hcc, (hpc.filter (fun c => c.1 == sid)).length_eq]
    exact count_le_cands_aux sid _ _ (fun r hr =>
      ⟨perRowCands_ne_nil qs r (matchedRows_hash_mem st qs r hr),
       perRowCands_fst _ r⟩)

/-- C10 witness: on a concrete store and query where song 1 is matched, the
count bound follows from the consistency theorem. -/
theorem claim10_witness :
    1 ≤ countsLookup
        (return_matches ⟨[], [⟨1, "ab", 3⟩], 2⟩ [("ab", 1)] 5).2 1 :=
  (claim10_output_consistency ⟨[], [⟨1, "ab", 3⟩], 2⟩ [("ab", 1)] 5 1).2.1 (by decide)
